import Mathlib

/-!
Verification of the guild/channel/permission core of the `curious` library:
a shallow embedding of `curious/dataclasses/channel.py` and
`curious/dataclasses/guild.py`, together with theorems about the
permission resolver, the history iterator, guild chunking state,
member-chunk application, the bulk-delete guard and the purge loop.

Machine integers: Python integers are unbounded, so permission bitfields
are embedded as `Nat` (they are always non-negative) and snowflake
arithmetic that can go negative as `Int`.
-/

namespace Curious

/-! ## Permissions (`curious/dataclasses/permissions.py` is not among the sources)

Modelled from the spec: a permission value is a plain bitfield; the
"administrator" bit is one fixed bit of it (bit 3 in the wire format),
and the all-permissions bitfield is the value with every permission bit
set.  `channel.py` only uses `Permissions.bitfield`, the `administrator`
flag and `Permissions.all()`, so that is all we model.
-/

/-- Modelled from the spec: the index of the "administrator" bit inside a
permission bitfield. -/
def administratorBitIndex : Nat := 3

/-- Modelled from the spec: `permissions.administrator` reads one fixed bit
of the bitfield. -/
def isAdministrator (bits : Nat) : Bool :=
  bits.testBit administratorBitIndex

namespace Permissions

/-- Modelled from the spec: `Permissions.all()`, the all-permissions
bitfield (every permission bit set). -/
def all : Nat := 2 ^ 53 - 1

end Permissions

/-- The fixed bitfield returned for channels with no guild
(`Channel.effective_permissions`, line 800: `Permissions(515136)`). -/
def defaultDmPermissions : Nat := 515136

/-- An overwrite entry of the `_overwrites` dict of a channel: an allow
bitfield and a deny bitfield (`curious.dataclasses.permissions.Overwrite`;
only these two fields are read by the resolver). -/
structure Overwrite where
  allow : Nat
  deny : Nat
deriving Repr, DecidableEq

/-- A guild role as the resolver sees it: its id and its baseline
permission bitfield (`role.permissions.bitfield`). -/
structure Role where
  id : Nat
  permissions : Nat
deriving Repr, DecidableEq

/-- A guild member as the resolver sees it: its id and the list of roles
it holds (`member.roles`; `member.py` is not among the sources, and the
spec describes `roles` as the set of roles the member holds). -/
structure Member where
  id : Nat
  roles : List Role
deriving Repr, DecidableEq

/-- The part of a guild the resolver reads: its id (which is also the id
of the default/everyone role, `guild.default_role.id`) and the baseline permission bitfield of
the default role. -/
structure GuildView where
  id : Nat
  defaultRolePermissions : Nat
deriving Repr, DecidableEq

/-- A channel as the resolver sees it: the (optional) guild it belongs to
and its `_overwrites` dict, keyed by principal id. -/
structure Channel where
  guild : Option GuildView
  overwrites : List (Nat × Overwrite)
deriving Repr, DecidableEq

/-- Dictionary lookup `self._overwrites.get(id)` by principal id. -/
def getOverwrite (ows : List (Nat × Overwrite)) (key : Nat) : Option Overwrite :=
  (ows.find? (fun p => p.1 == key)).map Prod.snd

/-- One overwrite application step of `effective_permissions`:
`permissions.bitfield &= ~deny; permissions.bitfield |= allow`
(clear the deny bits, then set the allow bits). -/
def applyOw (p allow deny : Nat) : Nat :=
  Nat.ldiff p deny ||| allow

/-- Lines 802-805: seed with the baseline bitfield of the everyone role, then
OR in the baseline bitfield of every role the member holds. -/
def baselineBits (g : GuildView) (m : Member) : Nat :=
  m.roles.foldl (fun acc r => acc ||| r.permissions) g.defaultRolePermissions

/-- Lines 815-820: aggregate the allow and the deny bitfields across every
overwrite keyed by one of the roles held by the member. -/
def roleAggregate (c : Channel) (m : Member) : Nat × Nat :=
  m.roles.foldl
    (fun ad r =>
      match getOverwrite c.overwrites r.id with
      | some ow => (ad.1 ||| ow.allow, ad.2 ||| ow.deny)
      | none => ad)
    (0, 0)

/-- The resolver `Channel.effective_permissions` (channel.py lines 795-830):
no guild ⇒ the fixed default bitfield; otherwise seed with role
baselines, short-circuit on administrator, then apply the everyone
overwrite, the aggregated role overwrites, and the member overwrite,
each clearing deny bits before setting allow bits. -/
def effectivePermissions (c : Channel) (m : Member) : Nat :=
  match c.guild with
  | none => defaultDmPermissions
  | some g =>
    let base := baselineBits g m
    if isAdministrator base then Permissions.all
    else
      let p1 :=
        match getOverwrite c.overwrites g.id with
        | some ow => applyOw base ow.allow ow.deny
        | none => base
      let agg := roleAggregate c m
      let p2 := applyOw p1 agg.1 agg.2
      match getOverwrite c.overwrites m.id with
      | some ow => applyOw p2 ow.allow ow.deny
      | none => p2

/-- One tier of the per-bit precedence cascade of the spec: the allow bit
of an overwrite forces the bit on, else its deny bit forces it off, else the
bit from the tiers below shows through. -/
def owBit (prev : Bool) (allow deny : Nat) (b : Nat) : Bool :=
  if allow.testBit b then true
  else if deny.testBit b then false
  else prev

/-- Written from the words of the spec (section 4.2, steps 5-7, and the
testable property on tier precedence), to be compared with
`effectivePermissions`: per bit, the member overwrite dominates the
role-aggregated overwrites, which dominate the everyone overwrite, which
dominates the role baselines. -/
def specTierBit (c : Channel) (g : GuildView) (m : Member) (b : Nat) : Bool :=
  let base := (baselineBits g m).testBit b
  let afterEveryone :=
    match getOverwrite c.overwrites g.id with
    | some ow => owBit base ow.allow ow.deny b
    | none => base
  let agg := roleAggregate c m
  let afterRoles := owBit afterEveryone agg.1 agg.2 b
  match getOverwrite c.overwrites m.id with
  | some ow => owBit afterRoles ow.allow ow.deny b
  | none => afterRoles

/-- Concrete resolver inputs used by the witnesses. -/
def witnessGuild : GuildView := { id := 1, defaultRolePermissions := 1024 }

/-- Concrete member used by the witnesses: holds one role with a baseline
bitfield and no administrator bit. -/
def witnessMember : Member := { id := 2, roles := [{ id := 3, permissions := 2048 }] }

/-- Concrete channel used by the C1 witness: conflicting overwrites at
every tier. -/
def witnessChannel : Channel :=
  { guild := some witnessGuild
    overwrites :=
      [(1, { allow := 1, deny := 2048 }),
       (3, { allow := 2, deny := 1 }),
       (2, { allow := 2048, deny := 2 })] }

/-- Concrete administrator member used by the C2 witness. -/
def witnessAdminMember : Member := { id := 2, roles := [{ id := 3, permissions := 8 }] }

/-- Concrete guildless channel used by the C7 witness. -/
def witnessDmChannel : Channel := { guild := none, overwrites := [] }

/-! ## Guild state (`curious/dataclasses/guild.py`)

The guild cache state read and written by `start_chunking`,
`_handle_member_chunk` and the `afk_channel` accessor.  Python dicts are
embedded as functions to `Option`; Python object identity of cached
`Member` objects is embedded as an allocation tag handed out by a
per-guild counter (`nextTag`), so "same object" becomes "same tag". -/

/-- One entry of a member-chunk payload: the user id
(`member_data["user"]["id"]`), the nickname field and the raw role-id
list (`member_data.get("roles", [])`). -/
structure MemberData where
  userId : Nat
  nick : Option String
  roleIds : List Nat
deriving Repr, DecidableEq

/-- A cached member object: allocation tag (object identity), user id,
nickname, and the key set of its `_roles` dict. -/
structure MemberObj where
  tag : Nat
  userId : Nat
  nickname : Option String
  roles : Finset Nat
deriving DecidableEq

/-- The fields of `Guild` the verified operations touch. -/
structure GuildState where
  id : Nat
  memberCount : Nat
  chunksLeft : Nat
  finishedChunking : Bool
  members : Nat → Option MemberObj
  roleIds : Finset Nat
  channels : Finset Nat
  afkChannelId : Option Nat
  nextTag : Nat

/-- Dict store `d[k] = v` on a function-embedded dict. -/
def dictSet (d : Nat → Option MemberObj) (k : Nat) (v : MemberObj) :
    Nat → Option MemberObj :=
  fun k2 => if k2 = k then some v else d k2

/-- The inner role loop of `_handle_member_chunk` (guild.py lines
281-284): each payload role id is looked up in the `_roles` dict of the guild
and added to the role dict of the member only if it resolves; a dangling id is
silently skipped. -/
def addResolvableRoles (guildRoles : Finset Nat) (base : Finset Nat)
    (payload : List Nat) : Finset Nat :=
  payload.foldl (fun rs r => if r ∈ guildRoles then insert r rs else rs) base

/-- The body of the member loop of `_handle_member_chunk` (guild.py lines
275-287): reuse the cached object for a known id, else construct a new
`Member`; add the resolvable payload roles; store the object back under
its id.  (`member.py` is not among the sources; modelled from the spec,
a freshly constructed `Member` carries the user identity and the
nickname of the payload and starts with an empty role dict, which the loop then fills.) -/
def upsertMember (g : GuildState) (md : MemberData) : GuildState :=
  match g.members md.userId with
  | some obj =>
    { g with
        members := dictSet g.members md.userId
          { obj with roles := addResolvableRoles g.roleIds obj.roles md.roleIds } }
  | none =>
    { g with
        members := dictSet g.members md.userId
          { tag := g.nextTag
            userId := md.userId
            nickname := md.nick
            roles := addResolvableRoles g.roleIds ∅ md.roleIds }
        nextTag := g.nextTag + 1 }

/-- The handler `Guild._handle_member_chunk` (guild.py lines 267-287): decrement the
outstanding-chunk counter if any chunks remain, then upsert every member
of the chunk. -/
def handleMemberChunk (g : GuildState) (chunk : List MemberData) : GuildState :=
  let g2 := if 1 ≤ g.chunksLeft then { g with chunksLeft := g.chunksLeft - 1 } else g
  chunk.foldl upsertMember g2

/-- The operation `Guild.start_chunking` (guild.py lines 255-257): reset the completion
event to pending and set the counter to `ceil(member_count / 1000)`. -/
def startChunking (g : GuildState) : GuildState :=
  { g with
      finishedChunking := false
      chunksLeft := (g.memberCount + 999) / 1000 }

/-- Modelled from the spec: the gateway state handler that receives a
member-chunk event (not among the sources) calls `_handle_member_chunk`
and then fires the completion event of the guild once `chunks_remaining`
reaches zero ("fires automatically once `chunks_remaining` reaches zero
via `apply_member_chunk`"). -/
def applyMemberChunk (g : GuildState) (chunk : List MemberData) : GuildState :=
  if (handleMemberChunk g chunk).chunksLeft = 0 then
    { handleMemberChunk g chunk with finishedChunking := true }
  else handleMemberChunk g chunk

/-- Folding a whole sequence of chunk events into the guild state. -/
def applyChunks (g : GuildState) (chunks : List (List MemberData)) : GuildState :=
  chunks.foldl applyMemberChunk g

/-- The operation `wait_until_chunked` waits on the `_finished_chunking` event: a waiter
(current or subsequent) is released exactly when the event is set. -/
def awaitChunkedReleased (g : GuildState) : Bool :=
  g.finishedChunking

/-- The Python exceptions relevant to the `afk_channel` accessor. -/
inductive PyErr where
  | keyError
  | indexError
deriving Repr, DecidableEq

/-- A Python dict subscript `self._channels[self._afk_channel_id]`, which
raises `KeyError` when the key (including `None`) is absent. -/
def channelsSubscript (g : GuildState) (key : Option Nat) : Except PyErr Nat :=
  match key with
  | some c => if c ∈ g.channels then Except.ok c else Except.error PyErr.keyError
  | none => Except.error PyErr.keyError

/-- The accessor `Guild.afk_channel` (guild.py lines 179-188): subscript the channels
dict with the AFK channel id inside a handler that catches only
`IndexError` (returning `None`); any other exception propagates. -/
def afkChannel (g : GuildState) : Except PyErr (Option Nat) :=
  match channelsSubscript g g.afkChannelId with
  | Except.ok c => Except.ok (some c)
  | Except.error PyErr.indexError => Except.ok none
  | Except.error e => Except.error e

/-- Concrete guild state used by the chunking witnesses: an empty member
map, 1500 members announced, no roles or channels cached. -/
def witnessGuildState : GuildState :=
  { id := 1
    memberCount := 1500
    chunksLeft := 0
    finishedChunking := true
    members := fun _ => none
    roleIds := ∅
    channels := ∅
    afkChannelId := none
    nextTag := 0 }

/-- Concrete guild state holding one cached member (id 7, tag 0, nickname
"old") and one role (id 1), used for the C8 witness and the C9
counterexample. -/
def memberGuildState : GuildState :=
  { id := 1
    memberCount := 1
    chunksLeft := 0
    finishedChunking := false
    members := fun k =>
      if k = 7 then
        some { tag := 0, userId := 7, nickname := some "old", roles := {1} }
      else none
    roleIds := {1}
    channels := ∅
    afkChannelId := none
    nextTag := 1 }

/-- Concrete member-chunk payload for cached member 7: new nickname and a
role list containing a resolvable id (1) and a dangling id (2). -/
def memberPayload : MemberData := { userId := 7, nick := some "new", roleIds := [1, 2] }

/-! ## Bulk-delete guard and purge (`channel.py` lines 381-510) -/

/-- The minimum allowed snowflake id for bulk deletion (channel.py lines
406 and 481):
`floor((time.time() - 14 * 24 * 60 * 60) * 1000.0 - 1420070400000) << 22`,
the Snowflake inverse mapping from the service epoch 1420070400000,
applied to "now minus 14 days".  `nowMs` is the integer number of
milliseconds `floor(time.time() * 1000)`; the subtracted terms are
integers, so the floor of the whole Python expression equals this exact
integer computation. -/
def minimumAllowed (nowMs : Int) : Int :=
  (nowMs - 14 * 24 * 60 * 60 * 1000 - 1420070400000) * 2 ^ 22

/-- The candidate-validation loop shared by `bulk_delete` (lines 407-413)
and the per-chunk check of `purge` (lines 483-489): walk the candidates
in order, failing with the first id below the threshold, otherwise
collecting all ids. -/
def checkIds (minA : Int) : List Int → Except Int (List Int)
  | [] => Except.ok []
  | m :: rest =>
    if m < minA then Except.error m
    else
      match checkIds minA rest with
      | Except.ok ids => Except.ok (m :: ids)
      | Except.error e => Except.error e

/-- A remote call issued by `bulk_delete`. -/
inductive RemoteCall where
  | bulkDeleteCall (channelId : Nat) (ids : List Int)
deriving Repr, DecidableEq

/-- The method `ChannelMessageWrapper.bulk_delete` (channel.py lines 402-417):
validate every candidate against the age threshold, then issue a single
`delete_multiple_messages` call and return the number deleted.  The
result pairs the remote calls actually issued with either the offending
id (the raised error names it) or the count of deleted messages. -/
def bulkDelete (nowMs : Int) (channelId : Nat) (msgs : List Int) :
    List RemoteCall × Except Int Nat :=
  match checkIds (minimumAllowed nowMs) msgs with
  | Except.error m => ([], Except.error m)
  | Except.ok ids => ([RemoteCall.bulkDeleteCall channelId ids], Except.ok ids.length)

/-- An action of the purge batch loop: a bulk-endpoint attempt for a
batch, or an individual message deletion. -/
inductive PurgeAct where
  | bulkCall (ids : List Int)
  | singleDel (id : Int)
deriving Repr, DecidableEq

/-- Failure modes of the purge loop: an age violation (the raised
`CuriousError` naming the id) or a propagated permission-denied
response. -/
inductive PErr where
  | ageViolation (id : Int)
  | forbidden
deriving Repr, DecidableEq

/-- The batch loop of `ChannelMessageWrapper.purge` (channel.py lines
477-510).  `forbid` is the behaviour of the transport: whether the bulk
endpoint answers a given batch with a permission-denied response.  Per
chunk: age-check the ids; while `can_bulk_delete` holds attempt the bulk
endpoint (a recorded call even when it comes back forbidden); on a
forbidden response clear `can_bulk_delete` permanently and, without the
fallback opt-in, re-raise; whenever `can_bulk_delete` is cleared delete
the messages of the chunk one by one. -/
def purgeChunks (minA : Int) (forbid : List Int → Bool) (fallback : Bool) :
    Bool → List (List Int) → List PurgeAct × Except PErr Unit
  | _, [] => ([], Except.ok ())
  | canBulk, chunk :: rest =>
    match checkIds minA chunk with
    | Except.error m => ([], Except.error (PErr.ageViolation m))
    | Except.ok ids =>
      if canBulk then
        if forbid ids then
          if fallback then
            (PurgeAct.bulkCall ids ::
                (chunk.map PurgeAct.singleDel ++
                  (purgeChunks minA forbid fallback false rest).1),
              (purgeChunks minA forbid fallback false rest).2)
          else ([PurgeAct.bulkCall ids], Except.error PErr.forbidden)
        else
          (PurgeAct.bulkCall ids :: (purgeChunks minA forbid fallback true rest).1,
            (purgeChunks minA forbid fallback true rest).2)
      else
        (chunk.map PurgeAct.singleDel ++ (purgeChunks minA forbid fallback false rest).1,
          (purgeChunks minA forbid fallback false rest).2)

/-- The chunk split of `purge` (channel.py line 480):
`[to_delete[i:i + 100] for i in range(0, len(to_delete), 100)]`. -/
def chunksOfAux (n : Nat) : Nat → List Int → List (List Int)
  | 0, _ => []
  | _ + 1, [] => []
  | fuel + 1, l => l.take n :: chunksOfAux n fuel (l.drop n)

/-- Splitting a candidate list into batches of at most `n`. -/
def chunksOf (n : Nat) (l : List Int) : List (List Int) :=
  chunksOfAux n l.length l

/-- Execution of `purge` after history collection: split the candidates
into batches of 100 and run the batch loop with bulk deletion allowed. -/
def purgeRun (nowMs : Int) (forbid : List Int → Bool) (fallback : Bool)
    (toDelete : List Int) : List PurgeAct × Except PErr Unit :=
  purgeChunks (minimumAllowed nowMs) forbid fallback true (chunksOf 100 toDelete)

/-! ## History iterator (`channel.py` lines 77-206) -/

/-- The mutable state of a `HistoryIterator`: the buffered messages
(ids), the count of iterations performed, the maximum message count
(negative means unbounded), the construction anchors, and the last
fetched/yielded message id. -/
structure HistState where
  buffer : List Nat
  currentCount : Nat
  maxMessages : Int
  before : Option Nat
  after : Option Nat
  lastMessageId : Option Nat
deriving Repr, DecidableEq

/-- Modelled from the spec: the message-page fetch of the transport
(`client.http.get_message_history` is not among the sources).  The
full history of the channel is a list of ids in strictly decreasing (newest
first) order; a `before` fetch returns the newest messages with id below
the anchor, newest first, capped at the page limit of 100 of the service
("3 page fetches (100+100+50)" over requests of up to 250). -/
def fetchPageBefore (histList : List Nat) (anchor : Option Nat) (limit : Nat) :
    List Nat :=
  match anchor with
  | some a => (histList.filter (fun m => m < a)).take (min limit 100)
  | none => histList.take (min limit 100)

/-- Modelled from the spec and the service default: an `after` fetch made
without an explicit limit (channel.py lines 160-161 pass none) returns
the default page of the service: the 50 oldest messages newer than the
anchor, presented newest first. -/
def serverDefaultPageSize : Nat := 50

/-- The `after` page fetch of the transport (see `serverDefaultPageSize`). -/
def fetchPageAfter (histList : List Nat) (anchor : Option Nat) : List Nat :=
  match anchor with
  | some a =>
    (((histList.filter (fun m => a < m)).reverse).take serverDefaultPageSize).reverse
  | none => ((histList.reverse).take serverDefaultPageSize).reverse

/-- Constructor state of `HistoryIterator.__init__` (channel.py lines 97-137): empty buffer,
zero count, the given bound and anchors, and `last_message_id` seeded
from `before` if set, else from `after`. -/
def histInit (maxMessages : Int) (beforeAnchor afterAnchor : Option Nat) : HistState :=
  { buffer := []
    currentCount := 0
    maxMessages := maxMessages
    before := beforeAnchor
    after := afterAnchor
    lastMessageId :=
      match beforeAnchor with
      | some b => some b
      | none => afterAnchor }

/-- The method `HistoryIterator.fill_messages` (channel.py lines 139-165): compute
`to_get` (100 if unbounded, else `max_messages - current_count`), return
without fetching if it is non-positive, else fetch one page in the
direction of the anchor (`before` pages are appended as received, `after`
pages are reversed first) and append it to the buffer.  The second
component logs the fetch made as (limit passed, page size received),
with limit -1 recording the `after` call that passes no limit. -/
def fillMessages (histList : List Nat) (s : HistState) : HistState × List (Int × Nat) :=
  let toGet : Int :=
    if s.maxMessages < 0 then 100 else s.maxMessages - (s.currentCount : Int)
  if toGet ≤ 0 then (s, [])
  else
    match s.before with
    | some _ =>
      let page := fetchPageBefore histList s.lastMessageId toGet.toNat
      ({ s with buffer := s.buffer ++ page }, [(toGet, page.length)])
    | none =>
      let page := (fetchPageAfter histList s.lastMessageId).reverse
      ({ s with buffer := s.buffer ++ page }, [(-1, page.length)])

/-- The step `HistoryIterator.__anext__` (channel.py lines 167-183): increment the
count; stop if it equals `max_messages`; fill the buffer if empty; stop
if still empty; else pop the head, record it as `last_message_id` and
yield it. -/
def histNext (histList : List Nat) (s : HistState) :
    Option Nat × HistState × List (Int × Nat) :=
  let s1 := { s with currentCount := s.currentCount + 1 }
  if (s1.currentCount : Int) = s1.maxMessages then (none, s1, [])
  else
    let sr := if s1.buffer.length ≤ 0 then fillMessages histList s1 else (s1, [])
    match sr.1.buffer with
    | [] => (none, sr.1, sr.2)
    | m :: rest => (some m, { sr.1 with buffer := rest, lastMessageId := some m }, sr.2)

/-- Driving a `HistoryIterator` to exhaustion (fuel-bounded): the list of
yielded message ids and the log of page fetches made. -/
def runHist (histList : List Nat) : Nat → HistState → List Nat × List (Int × Nat)
  | 0, _ => ([], [])
  | fuel + 1, s =>
    match histNext histList s with
    | (none, _, reqs) => ([], reqs)
    | (some m, s2, reqs) =>
      (m :: (runHist histList fuel s2).1, reqs ++ (runHist histList fuel s2).2)

/-- A channel history of exactly 1000 messages with ids 1000 down to 1
(newest first). -/
def hist1000 : List Nat := (List.range 1000).map (fun i => 1000 - i)

/-- Executable check that a list of ids is in strictly decreasing order. -/
def strictlyDescending : List Nat → Bool
  | [] => true
  | [_] => true
  | a :: b :: rest => decide (b < a) && strictlyDescending (b :: rest)

end Curious

namespace Curious

theorem applyOw_testBit (p allow deny b : Nat) :
    (applyOw p allow deny).testBit b = owBit (p.testBit b) allow deny b := by
  simp only [applyOw, owBit, Nat.testBit_lor, Nat.testBit_ldiff]
  cases allow.testBit b <;> cases deny.testBit b <;> cases p.testBit b <;> rfl

/-- Claim C1: for a guild channel and a non-administrator member, the
resolver applies the overwrite tiers in strict precedence: on every bit,
the member-specific overwrite dominates the aggregated role overwrites,
which dominate the everyone overwrite, which dominates the role
baselines. -/
theorem effective_permissions_tier_precedence
    (c : Channel) (m : Member) (g : GuildView) (b : Nat)
    (hg : c.guild = some g)
    (hadm : isAdministrator (baselineBits g m) = false) :
    (effectivePermissions c m).testBit b = specTierBit c g m b := by
  unfold effectivePermissions specTierBit
  rw [hg]
  simp only [hadm, Bool.false_eq_true, if_false]
  cases hE : getOverwrite c.overwrites g.id <;>
    cases hM : getOverwrite c.overwrites m.id <;>
      simp only [applyOw_testBit]

/-- Witness for C1 at a concrete configuration with conflicting allow and
deny bits at every tier. -/
theorem effective_permissions_tier_precedence_witness :
    (effectivePermissions witnessChannel witnessMember).testBit 11 =
      specTierBit witnessChannel witnessGuild witnessMember 11 :=
  effective_permissions_tier_precedence witnessChannel witnessMember witnessGuild 11
    rfl (by decide)

/-- Claim C2: if the administrator bit is set in the union of the baseline
bitfield of the everyone role and the baseline bitfields of the held roles, the
resolver returns the all-permissions bitfield regardless of the overwrites
of the channel. -/
theorem effective_permissions_administrator
    (c : Channel) (m : Member) (g : GuildView)
    (hg : c.guild = some g)
    (hadm : isAdministrator (baselineBits g m) = true) :
    effectivePermissions c m = Permissions.all := by
  unfold effectivePermissions
  rw [hg]
  simp [hadm]

/-- Witness for C2: an administrator member in a channel carrying a deny
overwrite for its role still resolves to the all-permissions bitfield. -/
theorem effective_permissions_administrator_witness :
    effectivePermissions witnessChannel witnessAdminMember = Permissions.all :=
  effective_permissions_administrator witnessChannel witnessAdminMember witnessGuild
    rfl (by decide)

/-- Claim C7: for a channel with no guild the resolver returns the fixed
default bitfield 515136 for every member, without consulting roles or
overwrites, and never fails. -/
theorem effective_permissions_no_guild
    (c : Channel) (m : Member) (hg : c.guild = none) :
    effectivePermissions c m = 515136 := by
  unfold effectivePermissions
  rw [hg]
  rfl

/-- Witness for C7 at a concrete guildless channel. -/
theorem effective_permissions_no_guild_witness :
    effectivePermissions witnessDmChannel witnessMember = 515136 :=
  effective_permissions_no_guild witnessDmChannel witnessMember rfl

theorem upsertMember_chunksLeft (g : GuildState) (md : MemberData) :
    (upsertMember g md).chunksLeft = g.chunksLeft := by
  unfold upsertMember
  split <;> rfl

theorem upsertMember_finishedChunking (g : GuildState) (md : MemberData) :
    (upsertMember g md).finishedChunking = g.finishedChunking := by
  unfold upsertMember
  split <;> rfl

theorem upsertMember_roleIds (g : GuildState) (md : MemberData) :
    (upsertMember g md).roleIds = g.roleIds := by
  unfold upsertMember
  split <;> rfl

theorem foldlUpsert_chunksLeft (chunk : List MemberData) :
    ∀ g : GuildState, (chunk.foldl upsertMember g).chunksLeft = g.chunksLeft := by
  induction chunk with
  | nil => intro g; rfl
  | cons md rest ih =>
    intro g
    rw [List.foldl_cons, ih, upsertMember_chunksLeft]

theorem foldlUpsert_finishedChunking (chunk : List MemberData) :
    ∀ g : GuildState,
      (chunk.foldl upsertMember g).finishedChunking = g.finishedChunking := by
  induction chunk with
  | nil => intro g; rfl
  | cons md rest ih =>
    intro g
    rw [List.foldl_cons, ih, upsertMember_finishedChunking]

theorem foldlUpsert_roleIds (chunk : List MemberData) :
    ∀ g : GuildState, (chunk.foldl upsertMember g).roleIds = g.roleIds := by
  induction chunk with
  | nil => intro g; rfl
  | cons md rest ih =>
    intro g
    rw [List.foldl_cons, ih, upsertMember_roleIds]

theorem handleMemberChunk_chunksLeft (g : GuildState) (chunk : List MemberData) :
    (handleMemberChunk g chunk).chunksLeft = g.chunksLeft - 1 := by
  unfold handleMemberChunk
  rw [foldlUpsert_chunksLeft]
  split
  · rfl
  · omega

theorem handleMemberChunk_finishedChunking (g : GuildState) (chunk : List MemberData) :
    (handleMemberChunk g chunk).finishedChunking = g.finishedChunking := by
  unfold handleMemberChunk
  rw [foldlUpsert_finishedChunking]
  split <;> rfl

theorem applyMemberChunk_chunksLeft (g : GuildState) (chunk : List MemberData) :
    (applyMemberChunk g chunk).chunksLeft = g.chunksLeft - 1 := by
  unfold applyMemberChunk
  by_cases h0 : (handleMemberChunk g chunk).chunksLeft = 0
  · rw [if_pos h0]
    exact handleMemberChunk_chunksLeft g chunk
  · rw [if_neg h0]
    exact handleMemberChunk_chunksLeft g chunk

theorem applyMemberChunk_finishedChunking (g : GuildState) (chunk : List MemberData) :
    (applyMemberChunk g chunk).finishedChunking =
      if g.chunksLeft - 1 = 0 then true else g.finishedChunking := by
  unfold applyMemberChunk
  by_cases h0 : g.chunksLeft - 1 = 0
  · rw [if_pos h0, if_pos (by rw [handleMemberChunk_chunksLeft]; exact h0)]
  · rw [if_neg h0, if_neg (by rw [handleMemberChunk_chunksLeft]; exact h0),
      handleMemberChunk_finishedChunking]

theorem applyChunks_progress (chunks : List (List MemberData)) :
    ∀ g : GuildState, g.finishedChunking = false → 1 ≤ g.chunksLeft →
      chunks.length ≤ g.chunksLeft →
      (applyChunks g chunks).chunksLeft = g.chunksLeft - chunks.length ∧
        (applyChunks g chunks).finishedChunking = decide (chunks.length = g.chunksLeft) := by
  induction chunks with
  | nil =>
    intro g hf hpos _
    refine ⟨rfl, ?_⟩
    rw [show applyChunks g [] = g from rfl, hf, List.length_nil]
    symm
    rw [decide_eq_false_iff_not]
    omega
  | cons c rest ih =>
    intro g hf hpos hlen
    have hstep : applyChunks g (c :: rest) = applyChunks (applyMemberChunk g c) rest := rfl
    have hcl : (applyMemberChunk g c).chunksLeft = g.chunksLeft - 1 :=
      applyMemberChunk_chunksLeft g c
    have hfc : (applyMemberChunk g c).finishedChunking =
        if g.chunksLeft - 1 = 0 then true else g.finishedChunking :=
      applyMemberChunk_finishedChunking g c
    rw [List.length_cons] at hlen ⊢
    by_cases hone : g.chunksLeft = 1
    · have hrest : rest = [] := by
        have : rest.length = 0 := by omega
        exact List.eq_nil_of_length_eq_zero this
      subst hrest
      rw [hstep]
      refine ⟨?_, ?_⟩
      · rw [show applyChunks (applyMemberChunk g c) [] = applyMemberChunk g c from rfl,
          hcl]
        simp
      · rw [show applyChunks (applyMemberChunk g c) [] = applyMemberChunk g c from rfl,
          hfc, hone]
        simp
    · have htwo : 2 ≤ g.chunksLeft := by omega
      have hf2 : (applyMemberChunk g c).finishedChunking = false := by
        rw [hfc, hf]
        split
        · omega
        · rfl
      have hpos2 : 1 ≤ (applyMemberChunk g c).chunksLeft := by omega
      have hlen2 : rest.length ≤ (applyMemberChunk g c).chunksLeft := by omega
      obtain ⟨ih1, ih2⟩ := ih (applyMemberChunk g c) hf2 hpos2 hlen2
      rw [hstep]
      refine ⟨?_, ?_⟩
      · rw [ih1, hcl]; omega
      · rw [ih2, hcl]
        rw [decide_eq_decide]
        omega

/-- Claim C4: `start_chunking` sets the outstanding-chunk counter to
`ceil(member_count / 1000)` and resets the completion event; applying
exactly that many member chunks brings the counter to zero and fires the
event (releasing every current and subsequent `wait_until_chunked`
waiter), while applying fewer leaves the event unfired and waiters
suspended.  (The event firing on counter exhaustion is modelled from the
spec, see `applyMemberChunk`.) -/
theorem chunking_completion
    (g : GuildState) (chunksA chunksB : List (List MemberData))
    (hpos : 1 ≤ (g.memberCount + 999) / 1000)
    (hA : chunksA.length = (g.memberCount + 999) / 1000)
    (hB : chunksB.length < (g.memberCount + 999) / 1000) :
    (applyChunks (startChunking g) chunksA).chunksLeft = 0 ∧
      awaitChunkedReleased (applyChunks (startChunking g) chunksA) = true ∧
      awaitChunkedReleased (applyChunks (startChunking g) chunksB) = false ∧
      0 < (applyChunks (startChunking g) chunksB).chunksLeft := by
  have hs : (startChunking g).chunksLeft = (g.memberCount + 999) / 1000 := rfl
  have hf : (startChunking g).finishedChunking = false := rfl
  obtain ⟨hA1, hA2⟩ :=
    applyChunks_progress chunksA (startChunking g) hf (by omega) (by omega)
  obtain ⟨hB1, hB2⟩ :=
    applyChunks_progress chunksB (startChunking g) hf (by omega) (by omega)
  refine ⟨by omega, ?_, ?_, by omega⟩
  · rw [awaitChunkedReleased, hA2, decide_eq_true_iff]
    omega
  · rw [awaitChunkedReleased, hB2, decide_eq_false_iff_not]
    omega

/-- Witness for C4: a guild announcing 1500 members chunks in
`ceil(1500/1000) = 2` batches; two batches complete it, one leaves it
pending. -/
theorem chunking_completion_witness :
    (applyChunks (startChunking witnessGuildState) [[], []]).chunksLeft = 0 ∧
      awaitChunkedReleased (applyChunks (startChunking witnessGuildState) [[], []]) = true ∧
      awaitChunkedReleased (applyChunks (startChunking witnessGuildState) [[]]) = false ∧
      0 < (applyChunks (startChunking witnessGuildState) [[]]).chunksLeft :=
  chunking_completion witnessGuildState [[], []] [[]]
    (by decide) (by decide) (by decide)

theorem mem_addResolvableRoles (guildRoles : Finset Nat) (payload : List Nat) :
    ∀ base r, r ∈ addResolvableRoles guildRoles base payload →
      r ∈ base ∨ r ∈ guildRoles := by
  induction payload with
  | nil => intro base r h; exact Or.inl h
  | cons p rest ih =>
    intro base r h
    unfold addResolvableRoles at h
    rw [List.foldl_cons] at h
    rcases ih _ r h with hb | hR
    · by_cases hp : p ∈ guildRoles
      · rw [if_pos hp] at hb
        rcases Finset.mem_insert.mp hb with rfl | hb2
        · exact Or.inr hp
        · exact Or.inl hb2
      · rw [if_neg hp] at hb
        exact Or.inl hb
    · exact Or.inr hR

theorem upsertMember_roleInv (g : GuildState) (md : MemberData)
    (hinv : ∀ k m, g.members k = some m → ∀ r ∈ m.roles, r ∈ g.roleIds) :
    ∀ k m, (upsertMember g md).members k = some m →
      ∀ r ∈ m.roles, r ∈ (upsertMember g md).roleIds := by
  rw [upsertMember_roleIds]
  intro k m hk r hr
  unfold upsertMember at hk
  split at hk
  case h_1 obj hobj =>
    simp only [dictSet] at hk
    by_cases hke : k = md.userId
    · rw [if_pos hke] at hk
      cases hk
      rcases mem_addResolvableRoles g.roleIds md.roleIds obj.roles r hr with hb | hR
      · exact hinv _ _ hobj r hb
      · exact hR
    · rw [if_neg hke] at hk
      exact hinv _ _ hk r hr
  case h_2 hobj =>
    simp only [dictSet] at hk
    by_cases hke : k = md.userId
    · rw [if_pos hke] at hk
      cases hk
      rcases mem_addResolvableRoles g.roleIds md.roleIds ∅ r hr with hb | hR
      · exact absurd hb (Finset.not_mem_empty r)
      · exact hR
    · rw [if_neg hke] at hk
      exact hinv _ _ hk r hr

theorem foldlUpsert_roleInv (chunk : List MemberData) :
    ∀ g : GuildState,
      (∀ k m, g.members k = some m → ∀ r ∈ m.roles, r ∈ g.roleIds) →
      ∀ k m, (chunk.foldl upsertMember g).members k = some m →
        ∀ r ∈ m.roles, r ∈ (chunk.foldl upsertMember g).roleIds := by
  induction chunk with
  | nil => intro g hinv; exact hinv
  | cons md rest ih =>
    intro g hinv
    rw [List.foldl_cons]
    exact ih (upsertMember g md) (upsertMember_roleInv g md hinv)

/-- Claim C8: applying a member chunk silently drops every payload role id
that is not present in the role map of the guild (no error is raised -- the
embedding is a total function), so the invariant that the role set of every cached member
references only role ids present in the role map of the guild is
preserved by every chunk application. -/
theorem member_chunk_drops_dangling_roles
    (g : GuildState) (chunk : List MemberData)
    (hinv : ∀ k m, g.members k = some m → ∀ r ∈ m.roles, r ∈ g.roleIds) :
    ∀ k m, (handleMemberChunk g chunk).members k = some m →
      ∀ r ∈ m.roles, r ∈ (handleMemberChunk g chunk).roleIds := by
  unfold handleMemberChunk
  split
  · exact foldlUpsert_roleInv chunk _ hinv
  · exact foldlUpsert_roleInv chunk _ hinv

/-- Witness for C8: a chunk whose payload names a dangling role id (2) is
applied to a guild knowing only role 1; afterwards the cached member
holds exactly role 1, which is in the role map. -/
theorem member_chunk_drops_dangling_roles_witness :
    (1 : Nat) ∈ (handleMemberChunk memberGuildState [memberPayload]).roleIds := by
  refine member_chunk_drops_dangling_roles memberGuildState [memberPayload] ?_ 7
    { tag := 0, userId := 7, nickname := some "old", roles := {1} } (by decide) 1 (by decide)
  intro k m hk r hr
  by_cases h7 : k = 7
  · subst h7
    simp only [memberGuildState, if_true, Option.some.injEq] at hk
    subst hk
    simpa [memberGuildState] using hr
  · simp only [memberGuildState] at hk
    rw [if_neg h7] at hk
    cases hk

/-- Counterexample for C9: applying a member chunk to an already-cached
member (id 7, nickname "old") whose payload carries nickname "new" leaves
the cached nickname at "old" -- the chunk handler does not update the
nickname of an existing member, contrary to the claim. -/
theorem member_chunk_nickname_not_updated :
    ((handleMemberChunk memberGuildState [memberPayload]).members 7).map
        MemberObj.nickname = some (some "old") ∧
      ((handleMemberChunk memberGuildState [memberPayload]).members 7).map
        MemberObj.nickname ≠ some (some "new") := by
  decide

/-- Claim C9 (amended): for a member id already cached, applying a chunk
entry for that id mutates the existing object in place -- the map entry
afterwards has the same allocation tag, user id and nickname, with only
the role set extended by the resolvable roles of the payload (the nickname is
left unchanged); an id not previously cached allocates a fresh object
(fresh tag, advancing the allocator) initialised from the payload. -/
theorem member_chunk_upsert_in_place (g : GuildState) (md : MemberData) :
    (match g.members md.userId with
     | some obj =>
        (upsertMember g md).members md.userId =
          some { obj with roles := addResolvableRoles g.roleIds obj.roles md.roleIds }
     | none =>
        (upsertMember g md).members md.userId =
            some { tag := g.nextTag
                   userId := md.userId
                   nickname := md.nick
                   roles := addResolvableRoles g.roleIds ∅ md.roleIds } ∧
          (upsertMember g md).nextTag = g.nextTag + 1) := by
  cases h : g.members md.userId with
  | some obj =>
    unfold upsertMember
    rw [h]
    simp [dictSet]
  | none =>
    unfold upsertMember
    rw [h]
    exact ⟨by simp [dictSet], rfl⟩

/-- Claim C10: when the AFK-channel id of a guild is unset or absent from its
channel map, the `afk_channel` accessor fails with a `KeyError` instead
of returning an absence value, because its handler catches `IndexError`
while the dict subscript raises `KeyError`. -/
theorem afk_channel_raises_keyerror (g : GuildState)
    (h : g.afkChannelId = none ∨ ∃ k, g.afkChannelId = some k ∧ k ∉ g.channels) :
    afkChannel g = Except.error PyErr.keyError := by
  rcases h with h | ⟨k, hk, hmem⟩
  · unfold afkChannel channelsSubscript
    rw [h]
  · have hcs : channelsSubscript g g.afkChannelId = Except.error PyErr.keyError := by
      rw [hk]
      show (if k ∈ g.channels then Except.ok k else Except.error PyErr.keyError) = _
      rw [if_neg hmem]
    unfold afkChannel
    rw [hcs]

/-- Witness for C10: a guild with no AFK channel id set. -/
theorem afk_channel_raises_keyerror_witness :
    afkChannel witnessGuildState = Except.error PyErr.keyError :=
  afk_channel_raises_keyerror witnessGuildState (Or.inl rfl)

theorem checkIds_error_of_mem (minA : Int) :
    ∀ msgs : List Int, (∃ m ∈ msgs, m < minA) →
      ∃ m, checkIds minA msgs = Except.error m ∧ m ∈ msgs ∧ m < minA := by
  intro msgs
  induction msgs with
  | nil => rintro ⟨m, hm, _⟩; cases hm
  | cons x rest ih =>
    rintro ⟨m, hm, hlt⟩
    by_cases hx : x < minA
    · exact ⟨x, by unfold checkIds; rw [if_pos hx], List.mem_cons_self x rest, hx⟩
    · have hm' : m ∈ rest := by
        rcases List.mem_cons.mp hm with rfl | h
        · exact absurd hlt hx
        · exact h
      obtain ⟨e, he, hemem, helt⟩ := ih ⟨m, hm', hlt⟩
      refine ⟨e, ?_, List.mem_cons_of_mem x hemem, helt⟩
      unfold checkIds
      rw [if_neg hx, he]

/-- Claim C5: if the id of any deletion candidate is below the 14-day minimum
(computed by the Snowflake inverse mapping from the service epoch),
`bulk_delete` fails with an error naming an offending candidate and
issues zero remote deletion calls. -/
theorem bulk_delete_age_guard (nowMs : Int) (channelId : Nat) (msgs : List Int)
    (h : ∃ m ∈ msgs, m < minimumAllowed nowMs) :
    (bulkDelete nowMs channelId msgs).1 = [] ∧
      ∃ m, (bulkDelete nowMs channelId msgs).2 = Except.error m ∧
        m ∈ msgs ∧ m < minimumAllowed nowMs := by
  obtain ⟨e, he, hmem, hlt⟩ := checkIds_error_of_mem (minimumAllowed nowMs) msgs h
  unfold bulkDelete
  rw [he]
  exact ⟨rfl, e, rfl, hmem, hlt⟩

/-- Witness for C5: at time 1600000000000 ms, candidate id 0 is far older
than 14 days, so `bulk_delete` fails without any remote call. -/
theorem bulk_delete_age_guard_witness :
    (bulkDelete 1600000000000 5 [0]).1 = [] ∧
      ∃ m, (bulkDelete 1600000000000 5 [0]).2 = Except.error m ∧
        m ∈ [(0 : Int)] ∧ m < minimumAllowed 1600000000000 :=
  bulk_delete_age_guard 1600000000000 5 [0] ⟨0, by decide, by decide⟩

theorem checkIds_ok (minA : Int) :
    ∀ l : List Int, (∀ m ∈ l, minA ≤ m) → checkIds minA l = Except.ok l := by
  intro l
  induction l with
  | nil => intro _; rfl
  | cons x rest ih =>
    intro h
    unfold checkIds
    rw [if_neg (by have := h x (List.mem_cons_self x rest); omega),
      ih (fun m hm => h m (List.mem_cons_of_mem x hm))]

theorem purgeChunks_noBulk (minA : Int) (forbid : List Int → Bool) (fallback : Bool) :
    ∀ chunks : List (List Int), (∀ c ∈ chunks, ∀ m ∈ c, minA ≤ m) →
      purgeChunks minA forbid fallback false chunks =
        (chunks.flatten.map PurgeAct.singleDel, Except.ok ()) := by
  intro chunks
  induction chunks with
  | nil => intro _; rfl
  | cons c rest ih =>
    intro h
    have hc := checkIds_ok minA c (h c (List.mem_cons_self c rest))
    have hrest := ih (fun x hx => h x (List.mem_cons_of_mem c hx))
    simp [purgeChunks, hc, hrest]

/-- Claim C6: in the purge batch loop, once a bulk attempt receives a
permission-denied response (the first batch the transport forbids), with
the fallback opt-in the run never attempts the bulk endpoint again and
deletes every message of that and all remaining batches individually,
completing successfully; without the opt-in the permission error
propagates immediately and the later batches are abandoned. -/
theorem purge_forbidden_policy (minA : Int) (forbid : List Int → Bool)
    (pre post : List (List Int)) (c : List Int)
    (hfresh : ∀ ch ∈ pre ++ c :: post, ∀ m ∈ ch, minA ≤ m)
    (hpre : ∀ x ∈ pre, forbid x = false)
    (hc : forbid c = true) :
    purgeChunks minA forbid true true (pre ++ c :: post) =
        (pre.map PurgeAct.bulkCall ++
            PurgeAct.bulkCall c :: (c ++ post.flatten).map PurgeAct.singleDel,
          Except.ok ()) ∧
      purgeChunks minA forbid false true (pre ++ c :: post) =
        (pre.map PurgeAct.bulkCall ++ [PurgeAct.bulkCall c],
          Except.error PErr.forbidden) := by
  induction pre with
  | nil =>
    have hcok := checkIds_ok minA c (hfresh c (List.mem_cons_self c post))
    have hpostT :=
      purgeChunks_noBulk minA forbid true post
        (fun x hx => hfresh x (List.mem_cons_of_mem c hx))
    constructor
    · simp [purgeChunks, hcok, hc, hpostT]
    · simp [purgeChunks, hcok, hc]
  | cons x pre' ih =>
    have hxok : checkIds minA x = Except.ok x :=
      checkIds_ok minA x (hfresh x (List.mem_cons_self x (pre' ++ c :: post)))
    have hxfb : forbid x = false := hpre x (List.mem_cons_self x pre')
    have hfresh' : ∀ ch ∈ pre' ++ c :: post, ∀ m ∈ ch, minA ≤ m :=
      fun ch hch => hfresh ch (List.mem_cons_of_mem x hch)
    have hpre' : ∀ y ∈ pre', forbid y = false :=
      fun y hy => hpre y (List.mem_cons_of_mem x hy)
    obtain ⟨ih1, ih2⟩ := ih hfresh' hpre'
    constructor
    · simp [purgeChunks, hxok, hxfb, ih1]
    · simp [purgeChunks, hxok, hxfb, ih2]

/-- Witness for C6: three fresh batches where the transport forbids the
second; with fallback the run bulk-deletes batch one, attempts batch two,
then single-deletes everything from batch two on; without fallback it
stops at the forbidden attempt. -/
theorem purge_forbidden_policy_witness :
    purgeChunks 0 (fun ids => decide (3 ∈ ids)) true true ([[1, 2]] ++ [3] :: [[4]]) =
        ([[1, 2]].map PurgeAct.bulkCall ++
            PurgeAct.bulkCall [3] :: (([3] : List Int) ++ [[4]].flatten).map PurgeAct.singleDel,
          Except.ok ()) ∧
      purgeChunks 0 (fun ids => decide (3 ∈ ids)) false true ([[1, 2]] ++ [3] :: [[4]]) =
        ([[1, 2]].map PurgeAct.bulkCall ++ [PurgeAct.bulkCall [3]],
          Except.error PErr.forbidden) :=
  purge_forbidden_policy 0 (fun ids => decide (3 ∈ ids)) [[1, 2]] [[4]] [3]
    (by decide) (by decide) (by decide)

set_option maxHeartbeats 4000000 in
set_option maxRecDepth 100000 in
/-- Claim C3 (evaluation at the claimed configuration): a `before`
anchored iterator with `max_messages = 250` over a 1000-message channel
makes exactly 3 page fetches, but they request 249, 149 and 49 items
(`max_messages - current_count`, not min(100, remaining quota)), receive
100, 100 and 49, and the iterator yields only 249 messages (in strictly
decreasing id order), not 250: the count check runs after incrementing
and before yielding, so the 250th message is never produced. -/
theorem history_iterator_before_250_run :
    (runHist hist1000 300 (histInit 250 (some 1001) none)).2 =
        [(249, 100), (149, 100), (49, 49)] ∧
      (runHist hist1000 300 (histInit 250 (some 1001) none)).1.length = 249 ∧
      strictlyDescending (runHist hist1000 300 (histInit 250 (some 1001) none)).1 =
        true := by
  decide

end Curious
